import Mathlib

/-!
Shallow embedding of the cache layer and rate limiter of the
scriptassist-nestjs exercise repository.

The rate limiter (`RateLimiterService`) and the cache (`CacheService`) each
talk to a remote Redis backend.  The backend store is modelled explicitly:

* the rate limiter's store maps keys to integer counters with an optional
  absolute expiry time (milliseconds);
* the cache's store is an association list from storage keys to serialized
  string values with an absolute expiry time.

Every backend round trip may fail with a `BackendError`; failure is injected
through explicit boolean flags, one per round trip, in the order the source
issues the calls.  Time is an explicit `now` parameter in milliseconds.
-/

/-- A stored rate-limiter entry: an integer value (a window counter, or the
`1` marker of a block record) plus an optional absolute expiry in ms.
`expiry = none` models a Redis key with no TTL. -/
structure RLEntry where
  value : Nat
  expiry : Option Nat
  deriving DecidableEq, Repr

/-- The rate limiter's backend store: total map from keys to entries. -/
def RLStore := String → Option RLEntry

/-- Point update of the store. -/
def RLStore.update (st : RLStore) (k : String) (e : RLEntry) : RLStore :=
  fun k' => if k' = k then some e else st k'

/-- Lazy expiration: an entry is visible at time `now` only while
`now < expiry` (Redis deletes expired keys on access). -/
def RLStore.live (st : RLStore) (now : Nat) (k : String) : Option RLEntry :=
  match st k with
  | none => none
  | some e =>
    match e.expiry with
    | none => some e
    | some t => if now < t then some e else none

/-- The integer value currently visible at `k` (0 when the key is absent or
expired), i.e. the value `INCR` starts from. -/
def RLStore.liveValue (st : RLStore) (now : Nat) (k : String) : Nat :=
  match st.live now k with
  | some e => e.value
  | none => 0

/-- `RateLimitConfig` of `rate-limiter.service`: points allowed, window
duration in seconds, optional block duration in seconds. -/
structure RateLimitConfig where
  points : Nat
  duration : Nat
  blockDuration : Option Nat
  deriving DecidableEq, Repr

/-- Result shape of `RateLimiterService.consume`. -/
structure ConsumeResult where
  success : Bool
  remainingPoints : Int
  msBeforeNext : Int
  deriving DecidableEq, Repr

namespace RateLimiterService

/-- The fail-open result `{success: true, remainingPoints: 1, msBeforeNext: 0}`
returned from the `catch` block of `consume`. -/
def failOpen : ConsumeResult :=
  { success := true, remainingPoints := 1, msBeforeNext := 0 }

/-- The window key `key:floor(now / (duration*1000))` built in `consume`. -/
def resultKey (key : String) (duration : Nat) (now : Nat) : String :=
  key ++ ":" ++ Nat.repr (now / (duration * 1000))

/-- The block-record key `key:blocked`. -/
def blockedKey (key : String) : String := key ++ ":blocked"

/-- Steps 4–6 of `consume`, after the increment and the conditional
`PEXPIRE`: compute `remainingPoints`, write the block record when
`consumedPoints > points && blockDuration` (JS truthiness: a zero or absent
`blockDuration` never blocks; `fBlock` is the failure flag of that `SET`),
and build the result `{success := consumedPoints <= points, ..}`. -/
def consumeFinish (key : String) (config : RateLimitConfig) (now : Nat)
    (consumedPoints : Nat) (msBeforeNext : Int) (stA : RLStore)
    (fBlock : Bool) : ConsumeResult × RLStore :=
  let remainingPoints : Int := max ((config.points : Int) - (consumedPoints : Int)) 0
  let res : ConsumeResult :=
    { success := consumedPoints ≤ config.points,
      remainingPoints := remainingPoints,
      msBeforeNext := msBeforeNext }
  match config.blockDuration with
  | some bd =>
    if consumedPoints > config.points ∧ bd ≠ 0 then
      if fBlock then (failOpen, stA)
      else
        (res, stA.update (blockedKey key) { value := 1, expiry := some (now + bd * 1000) })
    else (res, stA)
  | none => (res, stA)

/-- `RateLimiterService.consume`.

Backend round trips, in source order, with a failure flag each:
`fExec` — the `MULTI [INCR resultKey; PTTL resultKey]` transaction (also
covers the per-command errors rethrown from its reply array);
`fExpire` — the `PEXPIRE` issued only when the post-increment count is 1;
`fBlock` — the `SET key:blocked 1 PX blockDuration*1000` issued only when
the count exceeds `points` and a block duration is configured.
Any raised error is caught and the call fails open.  The returned store
reflects the mutations that committed before the failure. -/
def consume (key : String) (config : RateLimitConfig) (now : Nat)
    (st : RLStore) (fExec fExpire fBlock : Bool) : ConsumeResult × RLStore :=
  let rk := resultKey key config.duration now
  if fExec then (failOpen, st)
  else
    -- MULTI: INCR then PTTL, atomically at time `now`
    let prev := st.live now rk
    let consumedPoints := (match prev with | some e => e.value | none => 0) + 1
    let prevExpiry : Option Nat := match prev with | some e => e.expiry | none => none
    -- PTTL after the INCR: remaining ms while a TTL is set, otherwise -1
    let ttl : Int := match prevExpiry with | some t => (t : Int) - (now : Int) | none => -1
    let st1 := st.update rk { value := consumedPoints, expiry := prevExpiry }
    if consumedPoints = 1 then
      -- first hit in a new window: PEXPIRE resultKey duration*1000
      if fExpire then (failOpen, st1)
      else
        let st2 := st1.update rk
          { value := consumedPoints, expiry := some (now + config.duration * 1000) }
        consumeFinish key config now consumedPoints ((config.duration * 1000 : Nat) : Int)
          st2 fBlock
    else
      consumeFinish key config now consumedPoints ttl st1 fBlock

/-- `RateLimiterService.isBlocked`: `EXISTS key:blocked`, fail-open to
`false` on backend error (`fExists`). -/
def isBlocked (key : String) (now : Nat) (st : RLStore) (fExists : Bool) : Bool :=
  if fExists then false
  else
    match st.live now (blockedKey key) with
    | some _ => true
    | none => false

/-- Sequential `consume` calls at the given list of times, threading the
backend store; no backend failures. -/
def consumeSeq (key : String) (config : RateLimitConfig) (ts : List Nat)
    (st : RLStore) : List ConsumeResult × RLStore :=
  match ts with
  | [] => ([], st)
  | t :: ts' =>
    let p := consume key config t st false false false
    let q := consumeSeq key config ts' p.2
    (p.1 :: q.1, q.2)

end RateLimiterService

/-! ## Cache layer (`CacheService`) -/

/-- A serialization scheme standing for `JSON.stringify` / `JSON.parse`.
The contract used by the cache layer is that parsing a stringified value
yields a deep-equal value, and that `JSON.stringify` of a storable value is
never the empty string (the code treats a falsy read — `null` or `""` — as
a miss). -/
structure Codec (α : Type) where
  stringify : α → String
  parse : String → Option α
  roundtrip : ∀ v, parse (stringify v) = some v
  ne_empty : ∀ v, stringify v ≠ ""

/-- A stored cache record: the serialized value and its absolute expiry
time in ms (`SET .. EX ttl` always sets a TTL). -/
structure CEntry where
  val : String
  expiry : Nat
  deriving DecidableEq, Repr

/-- The cache's backend store, an association list keyed by storage key. -/
abbrev CStore := List (String × CEntry)

/-- Raw lookup (first binding wins, as in a map). -/
def CStore.lookup : CStore → String → Option CEntry
  | [], _ => none
  | p :: st, k => if p.1 = k then some p.2 else CStore.lookup st k

/-- Lookup with lazy expiration: visible only while `now < expiry`. -/
def CStore.live (st : CStore) (now : Nat) (k : String) : Option CEntry :=
  match st.lookup k with
  | some e => if now < e.expiry then some e else none
  | none => none

/-- `SET k v EX ttl`: replace any binding of `k`. -/
def CStore.put (st : CStore) (k : String) (e : CEntry) : CStore :=
  (k, e) :: st.filter (fun p => p.1 ≠ k)

/-- `DEL` of a set of keys. -/
def CStore.eraseKeys (st : CStore) (ks : List String) : CStore :=
  st.filter (fun p => ¬ p.1 ∈ ks)

/-- Character-list prefix test (the fragment of Redis `KEYS pat` glob
matching that a pattern `ns:*` with a plain namespace exercises). -/
def listPrefix : List Char → List Char → Bool
  | [], _ => true
  | _ :: _, [] => false
  | a :: asx, b :: bs => a == b && listPrefix asx bs

/-- `pre` is a prefix of `s`. -/
def strHasPrefix (pre s : String) : Bool := listPrefix pre.data s.data

/-- `KEYS pat`-style enumeration used by `clear`: the keys of the live
entries whose storage key starts with `ns ++ ":"`. -/
def CStore.keysWithPrefix (st : CStore) (now : Nat) (pre : String) : List String :=
  (st.filter (fun p => decide (now < p.2.expiry) && strHasPrefix pre p.1)).map (fun p => p.1)

namespace CacheService

/-- `getKey`: `namespace:key` when a namespace is given, else the bare key. -/
def getKey (key : String) (ns : Option String) : String :=
  match ns with
  | some n => n ++ ":" ++ key
  | none => key

/-- Default TTL of the cache layer, seconds. -/
def DEFAULT_TTL : Nat := 300

/-- `CacheService.set`: serialize and `SET finalKey value EX ttl`.  A backend
failure (`fSet`) is rethrown to the caller. -/
def set {α : Type} (c : Codec α) (key : String) (value : α) (ttl : Nat)
    (ns : Option String) (now : Nat) (st : CStore) (fSet : Bool) :
    Except Unit CStore :=
  if fSet then .error ()
  else .ok (st.put (getKey key ns)
    { val := c.stringify value, expiry := now + ttl * 1000 })

/-- `CacheService.get`: read `finalKey`; a falsy reply (absent key or empty
string) is a miss; the reply is `JSON.parse`d.  Any error — backend failure
(`fGet`) or a parse error — is caught and becomes `null`. -/
def get {α : Type} (c : Codec α) (key : String) (ns : Option String)
    (now : Nat) (st : CStore) (fGet : Bool) : Option α :=
  if fGet then none
  else
    match st.live now (getKey key ns) with
    | none => none
    | some e => if e.val = "" then none else c.parse e.val

/-- `CacheService.delete`: `DEL finalKey`, true iff exactly one key was
removed; a backend failure (`fDel`) is caught and becomes `false`. -/
def delete (key : String) (ns : Option String) (now : Nat) (st : CStore)
    (fDel : Bool) : Bool × CStore :=
  if fDel then (false, st)
  else
    match st.live now (getKey key ns) with
    | some _ => (true, st.eraseKeys [getKey key ns])
    | none => (false, st.eraseKeys [getKey key ns])

/-- `CacheService.clear`: with a namespace, `KEYS ns:*` (failure flag
`fKeys`) then, when non-empty, `DEL` of them all (failure flag `fDel`);
without a namespace, `FLUSHDB` (flag `fKeys`).  Any error is rethrown. -/
def clear (ns : Option String) (now : Nat) (st : CStore)
    (fKeys fDel : Bool) : Except Unit CStore :=
  match ns with
  | some n =>
    if fKeys then .error ()
    else
      let ks := st.keysWithPrefix now (n ++ ":")
      if ks.length > 0 then
        if fDel then .error () else .ok (st.eraseKeys ks)
      else .ok st
  | none => if fKeys then .error () else .ok []

/-- `CacheService.has`: `EXISTS finalKey`; backend failure (`fEx`) becomes
`false`. -/
def has (key : String) (ns : Option String) (now : Nat) (st : CStore)
    (fEx : Bool) : Bool :=
  if fEx then false
  else
    match st.live now (getKey key ns) with
    | some _ => true
    | none => false

/-- `CacheService.mset`: one pipeline of `SET finalKey value EX ttl` for
each entry in order, executed as a single backend call (failure flag
`fPipe`); a failed pipeline is rethrown to the caller. -/
def mset {α : Type} (c : Codec α) (kvs : List (String × α)) (ttl : Nat)
    (ns : Option String) (now : Nat) (st : CStore) (fPipe : Bool) :
    Except Unit CStore :=
  if fPipe then .error ()
  else .ok (kvs.foldl
    (fun s p => s.put (getKey p.1 ns)
      { val := c.stringify p.2, expiry := now + ttl * 1000 }) st)

/-- `CacheService.mget`: `MGET` of the namespaced keys (failure flag
`fMget`), then `JSON.parse` of each non-falsy reply.  A backend failure —
or a parse error on any reply, which throws out of the `map` — is caught
and yields a list of `null`s of the input length. -/
def mget {α : Type} (c : Codec α) (keys : List String) (ns : Option String)
    (now : Nat) (st : CStore) (fMget : Bool) : List (Option α) :=
  if fMget then List.replicate keys.length none
  else
    let raws := keys.map (fun k => st.live now (getKey k ns))
    if raws.any (fun r =>
        match r with
        | some e => decide (e.val ≠ "") && (c.parse e.val).isNone
        | none => false) then
      List.replicate keys.length none
    else
      raws.map (fun r =>
        match r with
        | some e => if e.val = "" then none else c.parse e.val
        | none => none)

end CacheService

/-! ## Request gate (`RateLimitGuard`) -/

/-- Per-route rate-limit metadata as attached by the decorator; `||` in the
source treats an absent or zero field as unset. -/
structure RateLimitOptions where
  limit : Option Nat
  windowMs : Option Nat
  deriving DecidableEq, Repr

/-- The configuration `getRateLimitConfig` hands to the limiter. -/
structure ResolvedRateLimit where
  limit : Nat
  windowMs : Nat
  deriving DecidableEq, Repr

/-- JS `x || d` on an optional numeric field: the default when the field is
absent or zero. -/
def orDefault (v : Option Nat) (d : Nat) : Nat :=
  match v with
  | some n => if n = 0 then d else n
  | none => d

/-- Informational metadata the guard writes on the response:
`X-RateLimit-Limit`, `X-RateLimit-Remaining`, `X-RateLimit-Reset`
(the reset instant `now + msBeforeNext`, in ms). -/
structure HeadersInfo where
  limit : Nat
  remaining : Int
  resetMs : Int
  deriving DecidableEq, Repr

/-- Outcome of `canActivate`: allow the request, or throw the 429
`TOO_MANY_REQUESTS` exception (with the headers already written and the
optional `retryAfter` seconds the exception body carries). -/
inductive GateDecision where
  | allow (headers : Option HeadersInfo)
  | tooMany (headers : Option HeadersInfo) (retryAfter : Option Int)
  deriving DecidableEq, Repr

namespace RateLimitGuard

/-- `getRateLimitConfig`: `null` without decorator metadata, otherwise the
declared limit/window with defaults 100 and 60000 ms for falsy fields. -/
def getRateLimitConfig (o : Option RateLimitOptions) : Option ResolvedRateLimit :=
  match o with
  | none => none
  | some rl => some { limit := orDefault rl.limit 100, windowMs := orDefault rl.windowMs 60000 }

/-- `canActivate` for a request whose decorator metadata resolved to `o` and
whose hashed client key is `key`: no configuration allows outright;
otherwise `isBlocked` (failure flag `fB`) rejects with 429 when true, then
`consume` runs with `blockDuration := 60` hardcoded, the rate-limit headers
are written, and a failed `consume` rejects with 429 carrying
`retryAfter = ceil(msBeforeNext/1000)`. -/
def canActivate (o : Option RateLimitOptions) (key : String) (now : Nat)
    (st : RLStore) (fB fExec fExpire fBlock : Bool) : GateDecision × RLStore :=
  match getRateLimitConfig o with
  | none => (.allow none, st)
  | some rl =>
    if RateLimiterService.isBlocked key now st fB then
      (.tooMany none none, st)
    else
      let p := RateLimiterService.consume key
        { points := rl.limit, duration := rl.windowMs / 1000, blockDuration := some 60 }
        now st fExec fExpire fBlock
      let h : HeadersInfo :=
        { limit := rl.limit, remaining := p.1.remainingPoints,
          resetMs := (now : Int) + p.1.msBeforeNext }
      if p.1.success then (.allow (some h), p.2)
      else (.tooMany (some h) (some (Int.ediv (p.1.msBeforeNext + 999) 1000)), p.2)

end RateLimitGuard

/-! ## A concrete serialization scheme, used to instantiate the generic
cache theorems on concrete values. -/

/-- Unary encoding of a natural number: `n` is stored as `n+1` copies of
`I`.  Total, injective, never empty — a minimal stand-in for a JSON
number codec. -/
def unaryCodec : Codec Nat where
  stringify := fun n => String.mk (List.replicate (n + 1) 'I')
  parse := fun s =>
    match s.data with
    | [] => none
    | l => if l.all (fun c => c == 'I') then some (l.length - 1) else none
  roundtrip := by
    intro v
    show (match (String.mk (List.replicate (v + 1) 'I')).data with
      | [] => none
      | l => if l.all (fun c => c == 'I') then some (l.length - 1) else none) = some v
    simp [List.replicate_succ]
  ne_empty := by
    intro v h
    have hd : (String.mk (List.replicate (v + 1) 'I')).data = ("" : String).data :=
      congrArg String.data h
    simp [List.replicate_succ] at hd

/-! ## Rate limiter lemmas -/

namespace RateLimiterService

/-- The result of `consumeFinish` (block-record writes do not change it). -/
theorem consumeFinish_fst (key : String) (config : RateLimitConfig) (now : Nat)
    (cp : Nat) (ms : Int) (stA : RLStore) :
    (consumeFinish key config now cp ms stA false).1 =
      { success := cp ≤ config.points,
        remainingPoints := max ((config.points : Int) - (cp : Int)) 0,
        msBeforeNext := ms } := by
  unfold consumeFinish
  cases config.blockDuration with
  | none => rfl
  | some bd =>
    by_cases h : cp > config.points ∧ bd ≠ 0 <;> simp [h]


/-- `consumeFinish` without overflow: no block record is written. -/
theorem consumeFinish_no_block (key : String) (config : RateLimitConfig)
    (now : Nat) (cp : Nat) (ms : Int) (stA : RLStore)
    (h : ¬ (cp > config.points)) :
    consumeFinish key config now cp ms stA false =
      ({ success := cp ≤ config.points,
         remainingPoints := max ((config.points : Int) - (cp : Int)) 0,
         msBeforeNext := ms }, stA) := by
  unfold consumeFinish
  cases config.blockDuration with
  | none => rfl
  | some bd => simp [h]

/-- A healthy `consume` call succeeds exactly when the post-increment count
is within the budget, and reports `remainingPoints = max(points - count, 0)`,
where the count is one more than the currently visible window value. -/
theorem consume_result (key : String) (config : RateLimitConfig) (now : Nat)
    (st : RLStore) :
    (consume key config now st false false false).1 =
      { success :=
          st.liveValue now (resultKey key config.duration now) + 1 ≤ config.points,
        remainingPoints :=
          max ((config.points : Int)
            - ((st.liveValue now (resultKey key config.duration now) + 1 : Nat) : Int)) 0,
        msBeforeNext :=
          (consume key config now st false false false).1.msBeforeNext } := by
  cases hl : st.live now (resultKey key config.duration now) with
  | none => simp [consume, RLStore.liveValue, hl, consumeFinish_fst]
  | some e =>
    by_cases he : e.value + 1 = 1 <;>
      simp [consume, RLStore.liveValue, hl, he, consumeFinish_fst]

/-- A healthy `consume` on a fresh window key: count 1, window expiry set to
`now + duration*1000`; within budget (`1 ≤ points`) nothing else changes. -/
theorem consume_fresh (key : String) (config : RateLimitConfig) (now : Nat)
    (st : RLStore)
    (hfresh : st.live now (resultKey key config.duration now) = none)
    (hP : 1 ≤ config.points) :
    consume key config now st false false false =
      ({ success := true,
         remainingPoints := (config.points : Int) - 1,
         msBeforeNext := ((config.duration * 1000 : Nat) : Int) },
       ((st.update (resultKey key config.duration now)
          { value := 1, expiry := none }).update
          (resultKey key config.duration now)
          { value := 1, expiry := some (now + config.duration * 1000) })) := by
  have hnb : ¬ (1 > config.points) := by omega
  have hmax : max ((config.points : Int) - ((1 : Nat) : Int)) 0 = (config.points : Int) - 1 := by
    rw [max_eq_left] <;> omega
  simp only [consume, hfresh]
  norm_num
  rw [consumeFinish_no_block _ _ _ _ _ _ hnb]
  simp [hmax, hP]

/-- A healthy `consume` on a live window entry `(c, expiry E)` with `c ≥ 1`
still within budget after the increment: count `c+1`, entry expiry kept,
`msBeforeNext` the remaining TTL. -/
theorem consume_live (key : String) (config : RateLimitConfig) (now : Nat)
    (st : RLStore) (c E : Nat)
    (hl : st.live now (resultKey key config.duration now) =
          some { value := c, expiry := some E })
    (hc : 1 ≤ c) (hle : c + 1 ≤ config.points) :
    consume key config now st false false false =
      ({ success := true,
         remainingPoints := (config.points : Int) - ((c : Int) + 1),
         msBeforeNext := (E : Int) - (now : Int) },
       st.update (resultKey key config.duration now)
         { value := c + 1, expiry := some E }) := by
  have hne : ¬ (c + 1 = 1) := by omega
  have hmax : max ((config.points : Int) - ((c + 1 : Nat) : Int)) 0
      = (config.points : Int) - ((c : Int) + 1) := by
    rw [max_eq_left] <;> push_cast <;> omega
  have hnb : ¬ (c + 1 > config.points) := by omega
  simp only [consume, hl]
  norm_num [hne]
  rw [consumeFinish_no_block _ _ _ _ _ _ hnb]
  simp [hmax, hle]; omega

/-- A healthy `consume` on a live window entry that has already reached the
budget reports failure. -/
theorem consume_live_over (key : String) (config : RateLimitConfig) (now : Nat)
    (st : RLStore) (c : Nat) (E : Option Nat)
    (hl : st.live now (resultKey key config.duration now) =
          some { value := c, expiry := E })
    (hc : 1 ≤ c) (hgt : config.points < c + 1) :
    (consume key config now st false false false).1.success = false := by
  have hne : ¬ (c + 1 = 1) := by omega
  cases E <;> simp [consume, hl, hne, consumeFinish_fst] <;> omega


/-- Unfolding a non-empty `consumeSeq`. -/
theorem consumeSeq_cons (key : String) (config : RateLimitConfig) (t : Nat)
    (ts' : List Nat) (st : RLStore) :
    consumeSeq key config (t :: ts') st =
      ((consume key config t st false false false).1 ::
        (consumeSeq key config ts' (consume key config t st false false false).2).1,
       (consumeSeq key config ts' (consume key config t st false false false).2).2) := rfl

/-- A run of healthy `consume` calls all within window `w`, starting from a
window counter `c ≥ 1` whose expiry `E` outlives every call: the `i`-th call
sees count `c+i+1`, succeeds exactly within budget, and reports
`max(points - (c+i+1), 0)` remaining, as long as the budget is exceeded at
most at the last call. -/
theorem consumeSeq_run (key : String) (config : RateLimitConfig) (w E : Nat)
    (ts : List Nat) (st : RLStore) (c : Nat)
    (hc : 1 ≤ c)
    (hlen : c + ts.length ≤ config.points + 1)
    (hw : ∀ t ∈ ts, t / (config.duration * 1000) = w)
    (hE : ∀ t ∈ ts, t < E)
    (hst : st (key ++ ":" ++ Nat.repr w) = some { value := c, expiry := some E }) :
    ∀ i < ts.length,
      (((consumeSeq key config ts st).1.getD i failOpen).success
          = decide (c + i + 1 ≤ config.points))
      ∧ ((consumeSeq key config ts st).1.getD i failOpen).remainingPoints
          = max ((config.points : Int) - ((c : Int) + (i : Int) + 1)) 0 := by
  induction ts generalizing st c with
  | nil => intro i hi; simp at hi
  | cons t ts' ih =>
    have hwt := hw t (List.mem_cons_self t ts')
    have hrk : resultKey key config.duration t = key ++ ":" ++ Nat.repr w := by
      unfold resultKey; rw [hwt]
    have hlive : st.live t (resultKey key config.duration t) =
        some { value := c, expiry := some E } := by
      unfold RLStore.live
      rw [hrk, hst]
      simp [hE t (List.mem_cons_self t ts')]
    by_cases hle : c + 1 ≤ config.points
    · have hcall := consume_live key config t st c E hlive hc hle
      intro i hi
      rw [consumeSeq_cons, hcall]
      cases i with
      | zero =>
        constructor
        · simp [decide_eq_true_eq]; omega
        · simp
          omega
      | succ i =>
        have hst' : (st.update (resultKey key config.duration t)
            { value := c + 1, expiry := some E }) (key ++ ":" ++ Nat.repr w) =
            some { value := c + 1, expiry := some E } := by
          unfold RLStore.update
          rw [hrk]
          simp
        have ihx := ih (st.update (resultKey key config.duration t)
            { value := c + 1, expiry := some E }) (c + 1)
          (by omega) (by simp at hlen ⊢; omega)
          (fun t' ht' => hw t' (List.mem_cons_of_mem t ht'))
          (fun t' ht' => hE t' (List.mem_cons_of_mem t ht'))
          hst' i (by simpa using hi)
        simp only [List.getD_cons_succ]
        constructor
        · rw [ihx.1]
          rw [show c + (i + 1) + 1 = c + 1 + i + 1 from by omega]
        · rw [ihx.2]
          push_cast
          ring_nf
    · have hts' : ts' = [] := by
        cases ts' with
        | nil => rfl
        | cons a l => simp at hlen; omega
      subst hts'
      intro i hi
      simp only [List.length_cons, List.length_nil] at hi
      have hi0 : i = 0 := by omega
      subst hi0
      rw [consumeSeq_cons]
      simp only [List.getD_cons_zero]
      constructor
      · rw [consume_result]
        unfold RLStore.liveValue
        rw [hlive]
      · rw [consume_result]
        unfold RLStore.liveValue
        rw [hlive]
        simp

end RateLimiterService

namespace RateLimiterService

/-- Window-membership bounds: `t / m = w` pins `t` inside `[w*m, w*m + m)`. -/
theorem window_bounds (t m w : Nat) (hm : 0 < m) (ht : t / m = w) :
    w * m ≤ t ∧ t < w * m + m := by
  constructor
  · have h1 := Nat.div_mul_le_self t m
    rw [ht] at h1
    exact h1
  · have h2 := Nat.div_add_mod t m
    have h3 := Nat.mod_lt t hm
    rw [ht] at h2
    rw [mul_comm w m]
    omega

end RateLimiterService

open RateLimiterService in
/-- C1: for every key and configuration with `points = P`, a healthy
`consume` computes the window count by atomic increment and succeeds exactly
when `count ≤ P`, with `remainingPoints = max(P - count, 0)`; hence `P`
sequential calls within one window on a fresh key all succeed with
`remainingPoints` strictly decreasing to 0 (`P - (i+1)` at call `i`), and the
`(P+1)`-th call in the same window fails. -/
theorem C1_rate_limiter_quota (key : String) (config : RateLimitConfig)
    (w : Nat) (ts : List Nat) (st : RLStore)
    (hP : 1 ≤ config.points) (hD : 1 ≤ config.duration)
    (hlen : ts.length = config.points + 1)
    (hw : ∀ t ∈ ts, t / (config.duration * 1000) = w)
    (hfresh : st (key ++ ":" ++ Nat.repr w) = none) :
    (∀ (now' : Nat) (st' : RLStore),
        (((consume key config now' st' false false false).1.success = true)
          ↔ st'.liveValue now' (resultKey key config.duration now') + 1 ≤ config.points)
        ∧ (consume key config now' st' false false false).1.remainingPoints
            = max ((config.points : Int)
                - ((st'.liveValue now' (resultKey key config.duration now') + 1 : Nat) : Int)) 0)
    ∧ (∀ i < config.points,
        (((consumeSeq key config ts st).1.getD i failOpen).success = true)
        ∧ ((consumeSeq key config ts st).1.getD i failOpen).remainingPoints
            = (config.points : Int) - ((i : Int) + 1))
    ∧ ((consumeSeq key config ts st).1.getD config.points failOpen).success = false := by
  have hm : 0 < config.duration * 1000 := by omega
  refine ⟨?_, ?_⟩
  · intro now' st'
    constructor
    · rw [consume_result]
      simp
    · rw [consume_result]
  · cases ts with
    | nil => simp at hlen
    | cons t1 rest =>
      have hwt1 : t1 / (config.duration * 1000) = w := hw t1 (List.mem_cons_self t1 rest)
      have hrk1 : resultKey key config.duration t1 = key ++ ":" ++ Nat.repr w := by
        unfold resultKey; rw [hwt1]
      have hfresh' : st.live t1 (resultKey key config.duration t1) = none := by
        unfold RLStore.live
        rw [hrk1, hfresh]
      have hcall := consume_fresh key config t1 st hfresh' hP
      have hb1 := window_bounds t1 (config.duration * 1000) w hm hwt1
      have hE : ∀ t ∈ rest, t < t1 + config.duration * 1000 := by
        intro t ht
        have := window_bounds t (config.duration * 1000) w hm
          (hw t (List.mem_cons_of_mem t1 ht))
        omega
      have hst2 : ((st.update (resultKey key config.duration t1)
            { value := 1, expiry := none }).update
            (resultKey key config.duration t1)
            { value := 1, expiry := some (t1 + config.duration * 1000) })
          (key ++ ":" ++ Nat.repr w)
          = some { value := 1, expiry := some (t1 + config.duration * 1000) } := by
        rw [← hrk1]
        unfold RLStore.update
        simp
      have hrestlen : rest.length = config.points := by
        simp at hlen; omega
      have run := consumeSeq_run key config w (t1 + config.duration * 1000) rest
        ((st.update (resultKey key config.duration t1)
            { value := 1, expiry := none }).update
            (resultKey key config.duration t1)
            { value := 1, expiry := some (t1 + config.duration * 1000) })
        1 (by omega) (by omega)
        (fun t ht => hw t (List.mem_cons_of_mem t1 ht)) hE hst2
      constructor
      · intro i hi
        cases i with
        | zero =>
          simp only [consumeSeq_cons, hcall, List.getD_cons_zero]
          constructor
          · trivial
          · simp
        | succ i =>
          have hx := run i (by omega)
          simp only [consumeSeq_cons, hcall, List.getD_cons_succ]
          constructor
          · rw [hx.1]
            simp [decide_eq_true_eq]
            omega
          · rw [hx.2]
            rw [max_eq_left (by push_cast; omega)]
            push_cast
            ring
      · have hx := run (config.points - 1) (by omega)
        have hidx : config.points = (config.points - 1) + 1 := by omega
        rw [hidx]
        simp only [consumeSeq_cons, hcall, List.getD_cons_succ]
        rw [hx.1]
        simp [decide_eq_true_eq]
        omega

/-- Concrete instantiation of C1: key `k`, 2 points per 1-second window,
three calls inside the first window. -/
theorem C1_rate_limiter_quota_witness :
    ((1 ≤ 2 ∧ (∀ t ∈ [0, 10, 20], t / (1 * 1000) = 0))
      ∧ ((fun (_ : String) => (none : Option RLEntry)) ("k" ++ ":" ++ Nat.repr 0) = none))
    ∧ ((RateLimiterService.consumeSeq "k" ⟨2, 1, none⟩ [0, 10, 20]
          (fun _ => none)).1.getD 2 RateLimiterService.failOpen).success = false :=
  ⟨⟨⟨by decide, by decide⟩, rfl⟩,
    (C1_rate_limiter_quota "k" ⟨2, 1, none⟩ 0 [0, 10, 20] (fun _ => none)
      (by decide) (by decide) (by decide) (by decide) rfl).2.2⟩

namespace RateLimiterService

/-- `consumeFinish` with overflow and a truthy block duration but a failing
`SET`: the error propagates to the catch, failing open. -/
theorem consumeFinish_block_fail (key : String) (config : RateLimitConfig)
    (now cp : Nat) (ms : Int) (stA : RLStore) (bd : Nat)
    (hbd : config.blockDuration = some bd) (hbd0 : bd ≠ 0)
    (hover : config.points < cp) :
    consumeFinish key config now cp ms stA true = (failOpen, stA) := by
  unfold consumeFinish
  rw [hbd]
  simp [hover, hbd0]

/-- `consumeFinish` with overflow and a truthy block duration writes the
block record `key:blocked` with expiry `now + bd*1000`. -/
theorem consumeFinish_block (key : String) (config : RateLimitConfig)
    (now cp : Nat) (ms : Int) (stA : RLStore) (bd : Nat)
    (hbd : config.blockDuration = some bd) (hbd0 : bd ≠ 0)
    (hover : config.points < cp) :
    consumeFinish key config now cp ms stA false =
      ({ success := cp ≤ config.points,
         remainingPoints := max ((config.points : Int) - (cp : Int)) 0,
         msBeforeNext := ms },
       stA.update (blockedKey key) { value := 1, expiry := some (now + bd * 1000) }) := by
  unfold consumeFinish
  rw [hbd]
  simp [hover, hbd0]

/-- An overflowing healthy `consume` leaves a store whose last write is the
block record. -/
theorem consume_over_block (key : String) (config : RateLimitConfig)
    (now : Nat) (st : RLStore) (bd : Nat)
    (hbd : config.blockDuration = some bd) (hbd0 : bd ≠ 0)
    (hover : config.points < st.liveValue now (resultKey key config.duration now) + 1) :
    ∃ stA : RLStore, (consume key config now st false false false).2
      = stA.update (blockedKey key) { value := 1, expiry := some (now + bd * 1000) } := by
  unfold RLStore.liveValue at hover
  cases hl : st.live now (resultKey key config.duration now) with
  | none =>
    rw [hl] at hover
    simp at hover
    refine ⟨(st.update (resultKey key config.duration now)
        { value := 1, expiry := none }).update
        (resultKey key config.duration now)
        { value := 1, expiry := some (now + config.duration * 1000) }, ?_⟩
    simp only [consume, hl]
    norm_num
    rw [consumeFinish_block key config now 1 _ _ bd hbd hbd0 (by omega)]
  | some e =>
    rw [hl] at hover
    simp only [] at hover
    by_cases he : e.value + 1 = 1
    · refine ⟨(st.update (resultKey key config.duration now)
          { value := e.value + 1, expiry := e.expiry }).update
          (resultKey key config.duration now)
          { value := e.value + 1, expiry := some (now + config.duration * 1000) }, ?_⟩
      simp only [consume, hl]
      rw [if_neg (by simp), if_pos he, if_neg (by simp)]
      rw [consumeFinish_block key config now _ _ _ bd hbd hbd0 hover]
    · refine ⟨st.update (resultKey key config.duration now)
          { value := e.value + 1, expiry := e.expiry }, ?_⟩
      simp only [consume, hl]
      rw [if_neg (by simp), if_neg he]
      rw [consumeFinish_block key config now _ _ _ bd hbd hbd0 hover]

/-- `isBlocked` after a block record was the last write: true exactly while
the record's expiry lies in the future. -/
theorem isBlocked_after_update (key : String) (t X : Nat) (stA : RLStore) :
    isBlocked key t (stA.update (blockedKey key)
        { value := 1, expiry := some X }) false = decide (t < X) := by
  unfold isBlocked RLStore.live RLStore.update
  simp only [if_pos rfl]
  by_cases ht : t < X <;> simp [ht]

end RateLimiterService

open RateLimiterService in
/-- C2: rate limiter fail-open.  If the `MULTI/EXEC` fails, if the first-hit
`PEXPIRE` fails, or if the block-record `SET` fails, `consume` returns
exactly `{success: true, remainingPoints: 1, msBeforeNext: 0}`; a failing
`EXISTS` makes `isBlocked` return `false`. -/
theorem C2_fail_open (key : String) (config : RateLimitConfig) (now : Nat)
    (st : RLStore) :
    (∀ fExpire fBlock, (consume key config now st true fExpire fBlock).1 = failOpen)
    ∧ (st.liveValue now (resultKey key config.duration now) = 0 →
        ∀ fBlock, (consume key config now st false true fBlock).1 = failOpen)
    ∧ (∀ bd, config.blockDuration = some bd → bd ≠ 0 →
        config.points < st.liveValue now (resultKey key config.duration now) + 1 →
        (consume key config now st false false true).1 = failOpen)
    ∧ isBlocked key now st true = false := by
  refine ⟨?_, ?_, ?_, ?_⟩
  · intro fExpire fBlock
    simp [consume]
  · intro hv fBlock
    unfold RLStore.liveValue at hv
    cases hl : st.live now (resultKey key config.duration now) with
    | none => simp [consume, hl]
    | some e =>
      rw [hl] at hv
      simp at hv
      simp [consume, hl, hv]
  · intro bd hbd hbd0 hover
    unfold RLStore.liveValue at hover
    cases hl : st.live now (resultKey key config.duration now) with
    | none =>
      rw [hl] at hover
      simp at hover
      simp only [consume, hl]
      norm_num
      rw [consumeFinish_block_fail key config now 1 _ _ bd hbd hbd0 (by omega)]
    | some e =>
      rw [hl] at hover
      by_cases he : e.value + 1 = 1
      · simp only [consume, hl]
        rw [if_neg (by simp), if_pos he, if_neg (by simp)]
        rw [consumeFinish_block_fail key config now _ _ _ bd hbd hbd0 hover]
      · simp only [consume, hl]
        rw [if_neg (by simp), if_neg he]
        rw [consumeFinish_block_fail key config now _ _ _ bd hbd hbd0 hover]
  · rfl

/-- Concrete instantiation of C2: a failing `PEXPIRE` on a fresh window
fails open. -/
theorem C2_fail_open_witness :
    RLStore.liveValue (fun _ => none) 0 (RateLimiterService.resultKey "k" 1 0) = 0
    ∧ (RateLimiterService.consume "k" ⟨5, 1, none⟩ 0 (fun _ => none)
        false true false).1 = RateLimiterService.failOpen :=
  ⟨rfl, (C2_fail_open "k" ⟨5, 1, none⟩ 0 (fun _ => none)).2.1 rfl false⟩

open RateLimiterService in
/-- C7: when a healthy `consume` observes a post-increment count above
`points` and a (truthy) `blockDuration` is configured, it writes the
BlockRecord under `key:blocked` with expiry `now + blockDuration*1000`, and
afterwards `isBlocked` returns `true` exactly while that record is live,
i.e. exactly for instants `t < now + blockDuration*1000`. -/
theorem C7_block_record (key : String) (config : RateLimitConfig) (now : Nat)
    (st : RLStore) (bd : Nat)
    (hbd : config.blockDuration = some bd) (hbd0 : bd ≠ 0)
    (hover : config.points < st.liveValue now (resultKey key config.duration now) + 1) :
    ((consume key config now st false false false).2 (blockedKey key)
        = some { value := 1, expiry := some (now + bd * 1000) })
    ∧ (∀ t, isBlocked key t (consume key config now st false false false).2 false
        = decide (t < now + bd * 1000)) := by
  obtain ⟨stA, hA⟩ := consume_over_block key config now st bd hbd hbd0 hover
  rw [hA]
  constructor
  · unfold RLStore.update
    simp
  · intro t
    exact isBlocked_after_update key t (now + bd * 1000) stA

/-- Concrete instantiation of C7: one point per window, second hit in the
window, 60-second block duration. -/
theorem C7_block_record_witness :
    ((⟨1, 1, some 60⟩ : RateLimitConfig).points <
      RLStore.liveValue
        (fun k => if k = "k:0" then some { value := 1, expiry := some 1000 } else none)
        0 (RateLimiterService.resultKey "k" 1 0) + 1)
    ∧ ((RateLimiterService.consume "k" ⟨1, 1, some 60⟩ 0
          (fun k => if k = "k:0" then some { value := 1, expiry := some 1000 } else none)
          false false false).2 (RateLimiterService.blockedKey "k")
        = some { value := 1, expiry := some 60000 }) :=
  ⟨by decide,
    (C7_block_record "k" ⟨1, 1, some 60⟩ 0
      (fun k => if k = "k:0" then some { value := 1, expiry := some 1000 } else none)
      60 rfl (by decide) (by decide)).1⟩

open RateLimiterService in
/-- C9: the gate allows unconditionally without a resolved configuration;
with one it rejects 429 when the client is blocked, rejects 429 with a
retry-after hint when `consume` fails, and allows with the limit/remaining/
reset metadata when `consume` succeeds. -/
theorem C9_gate_decision (rl : RateLimitOptions) (key : String) (now : Nat)
    (st : RLStore) :
    (∀ fB fExec fExpire fBlock,
        RateLimitGuard.canActivate none key now st fB fExec fExpire fBlock
          = (.allow none, st))
    ∧ (∀ fExec fExpire fBlock, isBlocked key now st false = true →
        RateLimitGuard.canActivate (some rl) key now st false fExec fExpire fBlock
          = (.tooMany none none, st))
    ∧ (∀ fExec fExpire fBlock, isBlocked key now st false = false →
        (consume key ⟨orDefault rl.limit 100, orDefault rl.windowMs 60000 / 1000, some 60⟩
            now st fExec fExpire fBlock).1.success = false →
        RateLimitGuard.canActivate (some rl) key now st false fExec fExpire fBlock
          = (.tooMany
              (some { limit := orDefault rl.limit 100,
                      remaining := (consume key
                        ⟨orDefault rl.limit 100, orDefault rl.windowMs 60000 / 1000, some 60⟩
                        now st fExec fExpire fBlock).1.remainingPoints,
                      resetMs := (now : Int) + (consume key
                        ⟨orDefault rl.limit 100, orDefault rl.windowMs 60000 / 1000, some 60⟩
                        now st fExec fExpire fBlock).1.msBeforeNext })
              (some (Int.ediv ((consume key
                  ⟨orDefault rl.limit 100, orDefault rl.windowMs 60000 / 1000, some 60⟩
                  now st fExec fExpire fBlock).1.msBeforeNext + 999) 1000)),
             (consume key ⟨orDefault rl.limit 100, orDefault rl.windowMs 60000 / 1000, some 60⟩
                now st fExec fExpire fBlock).2))
    ∧ (∀ fExec fExpire fBlock, isBlocked key now st false = false →
        (consume key ⟨orDefault rl.limit 100, orDefault rl.windowMs 60000 / 1000, some 60⟩
            now st fExec fExpire fBlock).1.success = true →
        RateLimitGuard.canActivate (some rl) key now st false fExec fExpire fBlock
          = (.allow
              (some { limit := orDefault rl.limit 100,
                      remaining := (consume key
                        ⟨orDefault rl.limit 100, orDefault rl.windowMs 60000 / 1000, some 60⟩
                        now st fExec fExpire fBlock).1.remainingPoints,
                      resetMs := (now : Int) + (consume key
                        ⟨orDefault rl.limit 100, orDefault rl.windowMs 60000 / 1000, some 60⟩
                        now st fExec fExpire fBlock).1.msBeforeNext }),
             (consume key ⟨orDefault rl.limit 100, orDefault rl.windowMs 60000 / 1000, some 60⟩
                now st fExec fExpire fBlock).2)) := by
  refine ⟨?_, ?_, ?_, ?_⟩
  · intro fB fExec fExpire fBlock
    rfl
  · intro fExec fExpire fBlock hB
    simp only [RateLimitGuard.canActivate, RateLimitGuard.getRateLimitConfig]
    rw [hB]
    simp
  · intro fExec fExpire fBlock hB hS
    simp only [RateLimitGuard.canActivate, RateLimitGuard.getRateLimitConfig]
    rw [hB]
    simp only [Bool.false_eq_true, if_false, hS]
  · intro fExec fExpire fBlock hB hS
    simp only [RateLimitGuard.canActivate, RateLimitGuard.getRateLimitConfig]
    rw [hB]
    simp only [Bool.false_eq_true, if_false, hS, if_true]

/-- Concrete instantiation of C9: limit 1, window 1000 ms, fresh store —
first request is allowed with metadata attached. -/
theorem C9_gate_decision_witness :
    (RateLimiterService.isBlocked "k" 0 (fun _ => none) false = false
      ∧ (RateLimiterService.consume "k" ⟨orDefault (some 1) 100, orDefault (some 1000) 60000 / 1000, some 60⟩
          0 (fun _ => none) false false false).1.success = true)
    ∧ RateLimitGuard.canActivate (some ⟨some 1, some 1000⟩) "k" 0 (fun _ => none)
        false false false false
      = (.allow
          (some { limit := orDefault (some 1) 100,
                  remaining := (RateLimiterService.consume "k"
                    ⟨orDefault (some 1) 100, orDefault (some 1000) 60000 / 1000, some 60⟩
                    0 (fun _ => none) false false false).1.remainingPoints,
                  resetMs := ((0 : Nat) : Int) + (RateLimiterService.consume "k"
                    ⟨orDefault (some 1) 100, orDefault (some 1000) 60000 / 1000, some 60⟩
                    0 (fun _ => none) false false false).1.msBeforeNext }),
         (RateLimiterService.consume "k"
            ⟨orDefault (some 1) 100, orDefault (some 1000) 60000 / 1000, some 60⟩
            0 (fun _ => none) false false false).2) :=
  ⟨⟨rfl, by decide⟩,
    (C9_gate_decision ⟨some 1, some 1000⟩ "k" 0 (fun _ => none)).2.2.2
      false false false rfl (by decide)⟩

open RateLimiterService in
/-- C10: whenever the gate's `consume` overflows the configured limit, a
block record with the hardcoded 60-second TTL is written, whatever the
route's declared options. -/
theorem C10_gate_block_ttl (rl : RateLimitOptions) (key : String) (now : Nat)
    (st : RLStore)
    (hB : isBlocked key now st false = false)
    (hover : orDefault rl.limit 100 <
      st.liveValue now (resultKey key (orDefault rl.windowMs 60000 / 1000) now) + 1) :
    (RateLimitGuard.canActivate (some rl) key now st false false false false).2
        (blockedKey key)
      = some { value := 1, expiry := some (now + 60 * 1000) } := by
  have hcfg : (⟨orDefault rl.limit 100, orDefault rl.windowMs 60000 / 1000, some 60⟩
      : RateLimitConfig).blockDuration = some 60 := rfl
  obtain ⟨stA, hA⟩ := consume_over_block key
    ⟨orDefault rl.limit 100, orDefault rl.windowMs 60000 / 1000, some 60⟩
    now st 60 hcfg (by omega) hover
  have hsnd : (RateLimitGuard.canActivate (some rl) key now st false false false false).2
      = (consume key ⟨orDefault rl.limit 100, orDefault rl.windowMs 60000 / 1000, some 60⟩
          now st false false false).2 := by
    simp only [RateLimitGuard.canActivate, RateLimitGuard.getRateLimitConfig]
    rw [hB]
    simp only [Bool.false_eq_true, if_false]
    by_cases hs : (consume key
        ⟨orDefault rl.limit 100, orDefault rl.windowMs 60000 / 1000, some 60⟩
        now st false false false).1.success <;> simp [hs]
  rw [hsnd, hA]
  unfold RLStore.update
  simp

/-- Concrete instantiation of C10: declared limit 1, window 1000 ms, a
window counter already at 1 — the second hit writes a 60-second block. -/
theorem C10_gate_block_ttl_witness :
    (RateLimiterService.isBlocked "k" 0
        (fun k => if k = "k:0" then some { value := 1, expiry := some 1000 } else none)
        false = false
      ∧ orDefault (some 1) 100 <
        RLStore.liveValue
          (fun k => if k = "k:0" then some { value := 1, expiry := some 1000 } else none)
          0 (RateLimiterService.resultKey "k" (orDefault (some 1000) 60000 / 1000) 0) + 1)
    ∧ (RateLimitGuard.canActivate (some ⟨some 1, some 1000⟩) "k" 0
        (fun k => if k = "k:0" then some { value := 1, expiry := some 1000 } else none)
        false false false false).2 (RateLimiterService.blockedKey "k")
      = some { value := 1, expiry := some 60000 } :=
  ⟨⟨by decide, by decide⟩,
    C10_gate_block_ttl ⟨some 1, some 1000⟩ "k" 0
      (fun k => if k = "k:0" then some { value := 1, expiry := some 1000 } else none)
      (by decide) (by decide)⟩

/-! ## Cache store lemmas -/

/-- Looking up the key just written. -/
theorem CStore.lookup_put_self (st : CStore) (k : String) (e : CEntry) :
    (st.put k e).lookup k = some e := by
  simp [CStore.put, CStore.lookup]

/-- Filtering out bindings of another key does not change a lookup. -/
theorem CStore.lookup_filter_ne (st : CStore) (k q : String) (hq : q ≠ k) :
    CStore.lookup (st.filter (fun p => p.1 ≠ k)) q = CStore.lookup st q := by
  induction st with
  | nil => rfl
  | cons p st ih =>
    simp only [decide_not] at ih
    rw [List.filter_cons]
    by_cases hpk : p.1 = k
    · have hpq : ¬ (p.1 = q) := by rw [hpk]; exact fun h => hq h.symm
      simp only [hpk, decide_not, decide_eq_true_eq]
      simp [CStore.lookup, hpq, ih]
    · by_cases hpq : p.1 = q
      · simp [CStore.lookup, hpk, hpq, hq]
      · simp [CStore.lookup, hpk, hpq, ih]

/-- Writing one key does not change a lookup of another. -/
theorem CStore.lookup_put_ne (st : CStore) (k q : String) (e : CEntry)
    (hq : q ≠ k) :
    (st.put k e).lookup q = st.lookup q := by
  have hkq : ¬ (k = q) := fun h => hq h.symm
  simp only [CStore.put, CStore.lookup, hkq, if_false]
  exact CStore.lookup_filter_ne st k q hq

/-- A successful raw lookup comes from some binding in the store. -/
theorem CStore.lookup_mem (st : CStore) (k : String) (e : CEntry)
    (h : st.lookup k = some e) : ∃ p ∈ st, p.1 = k ∧ p.2 = e := by
  induction st with
  | nil => exact absurd h (by simp [CStore.lookup])
  | cons p st ih =>
    unfold CStore.lookup at h
    by_cases hpk : p.1 = k
    · rw [if_pos hpk] at h
      exact ⟨p, List.mem_cons_self p st, hpk, Option.some.inj h⟩
    · rw [if_neg hpk] at h
      obtain ⟨p', hm, hk, he⟩ := ih h
      exact ⟨p', List.mem_cons_of_mem p hm, hk, he⟩

/-- Erasing a set of keys not containing `q` does not change a lookup. -/
theorem CStore.lookup_eraseKeys_notin (st : CStore) (ks : List String)
    (q : String) (hq : ¬ q ∈ ks) :
    CStore.lookup (st.eraseKeys ks) q = CStore.lookup st q := by
  induction st with
  | nil => rfl
  | cons p st ih =>
    unfold CStore.eraseKeys at ih ⊢
    simp only [decide_not] at ih
    rw [List.filter_cons]
    by_cases hmem : p.1 ∈ ks
    · have hpq : ¬ (p.1 = q) := fun h => hq (h ▸ hmem)
      simp only [hmem, decide_not]
      simp [CStore.lookup, hpq, ih]
    · by_cases hpq : p.1 = q
      · simp [CStore.lookup, hmem, hpq, hq]
      · simp [CStore.lookup, hmem, hpq, ih]

/-- C3 counterexample: with the backend raising during the key enumeration,
`clear` raises (returns the error) instead of being silently skipped. -/
theorem C3_clear_not_silent_counterexample :
    CacheService.clear (some "tasks") 0 [] true false = .error () := rfl

/-- C3 (amended): on a backend failure `delete` returns `false` without
raising, but `clear` logs and RE-RAISES the error to its caller (both with a
namespace, where the `KEYS` call fails, and without one, where the `FLUSHDB`
fails). -/
theorem C3_delete_false_clear_raises (key : String) (ns : Option String)
    (now : Nat) (st : CStore) (fDel : Bool) :
    CacheService.delete key ns now st true = (false, st)
    ∧ CacheService.clear ns now st true fDel = .error () := by
  constructor
  · rfl
  · cases ns <;> rfl

/-- A left fold of `SET`s over keys distinct from `q` does not change the
binding of `q`. -/
theorem CStore.lookup_foldl_put_notin {α : Type} (c : Codec α)
    (ns : Option String) (ttl now : Nat) (q : String) :
    ∀ (l : List (String × α)) (st0 : CStore),
      (∀ p ∈ l, CacheService.getKey p.1 ns ≠ q) →
      CStore.lookup (l.foldl
        (fun s p => s.put (CacheService.getKey p.1 ns)
          { val := c.stringify p.2, expiry := now + ttl * 1000 }) st0) q
        = CStore.lookup st0 q := by
  intro l
  induction l with
  | nil => intro st0 _; rfl
  | cons p rest ih =>
    intro st0 hne
    simp only [List.foldl_cons]
    rw [ih _ (fun q' hq' => hne q' (List.mem_cons_of_mem p hq'))]
    exact CStore.lookup_put_ne st0 (CacheService.getKey p.1 ns) q _
      (fun h => hne p (List.mem_cons_self p rest) h.symm)

/-- After the `mset` fold, every entry of a batch with pairwise-distinct
storage keys is bound to its serialized value and TTL. -/
theorem CStore.lookup_mset_foldl {α : Type} (c : Codec α)
    (ns : Option String) (ttl now : Nat) :
    ∀ (kvs : List (String × α)) (st : CStore),
      (kvs.map (fun p => CacheService.getKey p.1 ns)).Nodup →
      ∀ k v, (k, v) ∈ kvs →
        CStore.lookup (kvs.foldl
          (fun s p => s.put (CacheService.getKey p.1 ns)
            { val := c.stringify p.2, expiry := now + ttl * 1000 }) st)
          (CacheService.getKey k ns)
          = some { val := c.stringify v, expiry := now + ttl * 1000 } := by
  intro kvs
  induction kvs with
  | nil => intro st _ k v hmem; simp at hmem
  | cons hd rest ih =>
    intro st hnd k v hmem
    obtain ⟨k0, v0⟩ := hd
    simp only [List.foldl_cons]
    rcases List.mem_cons.mp hmem with hhead | htail
    · rw [Prod.mk.injEq] at hhead
      obtain ⟨hk, hv⟩ := hhead
      subst hk
      subst hv
      have hnotin : ∀ q ∈ rest, CacheService.getKey q.1 ns ≠ CacheService.getKey k ns := by
        intro q hq heq
        simp only [List.map_cons, List.nodup_cons] at hnd
        exact hnd.1 (heq ▸ List.mem_map_of_mem (fun p => CacheService.getKey p.1 ns) hq)
      rw [CStore.lookup_foldl_put_notin c ns ttl now _ rest _ hnotin]
      exact CStore.lookup_put_self st (CacheService.getKey k ns)
        { val := c.stringify v, expiry := now + ttl * 1000 }
    · exact ih _ (by simpa using List.Nodup.of_cons hnd) k v htail

open CacheService in
/-- C4: `mset` writes the whole batch through one pipelined call: a failing
pipeline surfaces as the single error of the call (it raises iff the
pipeline failed), and a successful one stores every entry (serialized, TTL
applied) with no per-key partial outcome. -/
theorem C4_mset_batch {α : Type} (c : Codec α) (kvs : List (String × α))
    (ttl : Nat) (ns : Option String) (now : Nat) (st : CStore) :
    (CacheService.mset c kvs ttl ns now st true = .error ())
    ∧ (∀ fPipe st', CacheService.mset c kvs ttl ns now st fPipe = .ok st' → fPipe = false)
    ∧ (∀ st', CacheService.mset c kvs ttl ns now st false = .ok st' →
        (kvs.map (fun p => getKey p.1 ns)).Nodup →
        ∀ k v, (k, v) ∈ kvs →
          CStore.lookup st' (getKey k ns)
            = some { val := c.stringify v, expiry := now + ttl * 1000 }) := by
  refine ⟨rfl, ?_, ?_⟩
  · intro fPipe st' h
    cases fPipe with
    | false => rfl
    | true => exact absurd h (by simp [CacheService.mset])
  · intro st' h hnd k v hmem
    have hst' : st' = kvs.foldl
        (fun s p => s.put (getKey p.1 ns)
          { val := c.stringify p.2, expiry := now + ttl * 1000 }) st := by
      simp [CacheService.mset] at h
      exact h.symm
    subst hst'
    exact CStore.lookup_mset_foldl c ns ttl now kvs st hnd k v hmem

/-- Concrete instantiation of C4: two entries, no namespace, fresh store. -/
theorem C4_mset_batch_witness :
    ((([("a", 1), ("b", 2)] : List (String × Nat)).map
        (fun p => CacheService.getKey p.1 none)).Nodup
      ∧ ("a", 1) ∈ ([("a", 1), ("b", 2)] : List (String × Nat)))
    ∧ CStore.lookup
        ((([("a", 1), ("b", 2)] : List (String × Nat)).foldl
          (fun s p => s.put (CacheService.getKey p.1 none)
            { val := unaryCodec.stringify p.2, expiry := 0 + 300 * 1000 }) ([] : CStore)))
        (CacheService.getKey "a" none)
      = some { val := unaryCodec.stringify 1, expiry := 0 + 300 * 1000 } :=
  ⟨⟨by decide, by decide⟩,
    (C4_mset_batch unaryCodec [("a", 1), ("b", 2)] 300 none 0 []).2.2 _ rfl
      (by decide) "a" 1 (by decide)⟩

open CacheService in
/-- C6: `set(key, V, ttl=60)` then `get(key)` in the same namespace returns
`V` (deep-equal via serialization round-trip) while the TTL has not elapsed,
and `null` from the moment it has. -/
theorem C6_cache_roundtrip {α : Type} (c : Codec α) (key : String) (v : α)
    (ns : Option String) (now t1 : Nat) (st st' : CStore)
    (hset : CacheService.set c key v 60 ns now st false = .ok st') :
    (t1 < now + 60 * 1000 → CacheService.get c key ns t1 st' false = some v)
    ∧ (now + 60 * 1000 ≤ t1 → CacheService.get c key ns t1 st' false = none) := by
  have hst' : st' = st.put (getKey key ns)
      { val := c.stringify v, expiry := now + 60 * 1000 } := by
    simp [CacheService.set] at hset
    exact hset.symm
  subst hst'
  have hlk := CStore.lookup_put_self st (getKey key ns)
    { val := c.stringify v, expiry := now + 60 * 1000 }
  constructor
  · intro ht
    simp [CacheService.get, CStore.live, hlk, ht, c.ne_empty v, c.roundtrip v]
  · intro ht
    have hnt : ¬ (t1 < now + 60 * 1000) := by omega
    simp [CacheService.get, CStore.live, hlk, hnt]

/-- Concrete instantiation of C6: value 3 under key `a`, written at time 0,
read back at 5 ms. -/
theorem C6_cache_roundtrip_witness :
    (CacheService.set unaryCodec "a" 3 60 none 0 [] false
        = .ok (CStore.put ([] : CStore) (CacheService.getKey "a" none)
            { val := unaryCodec.stringify 3, expiry := 0 + 60 * 1000 })
      ∧ (5 : Nat) < 0 + 60 * 1000)
    ∧ CacheService.get unaryCodec "a" none 5
        (CStore.put ([] : CStore) (CacheService.getKey "a" none)
          { val := unaryCodec.stringify 3, expiry := 0 + 60 * 1000 }) false = some 3 :=
  ⟨⟨rfl, by decide⟩,
    (C6_cache_roundtrip unaryCodec "a" 3 none 0 5 [] _ rfl).1 (by decide)⟩

/-- Erasing the empty key list is a no-op. -/
theorem CStore.eraseKeys_nil (st : CStore) : st.eraseKeys [] = st := by
  simp [CStore.eraseKeys]

/-- A live hit also means a raw binding with a future expiry. -/
theorem CStore.live_some (st : CStore) (now : Nat) (k : String) (e : CEntry)
    (h : st.live now k = some e) :
    st.lookup k = some e ∧ now < e.expiry := by
  unfold CStore.live at h
  cases hlk : st.lookup k with
  | none => simp [hlk] at h
  | some e' =>
    simp only [hlk] at h
    by_cases hliv : now < e'.expiry
    · rw [if_pos hliv] at h
      have he : e' = e := Option.some.inj h
      subst he
      exact ⟨rfl, hliv⟩
    · rw [if_neg hliv] at h
      exact absurd h (by simp)

/-- A healthy namespace `clear` resolves to erasing exactly the enumerated
live prefixed keys. -/
theorem CacheService.clear_some_ok (n : String) (now : Nat) (st : CStore) :
    CacheService.clear (some n) now st false false
      = .ok (st.eraseKeys (st.keysWithPrefix now (n ++ ":"))) := by
  simp only [CacheService.clear]
  by_cases h : (st.keysWithPrefix now (n ++ ":")).length > 0
  · simp [h]
  · have hnil : st.keysWithPrefix now (n ++ ":") = [] :=
      List.length_eq_zero.mp (by omega)
    simp [h, hnil, CStore.eraseKeys_nil]

/-- After a namespace clear, every key with the namespace prefix reads as
absent. -/
theorem CStore.live_clear_prefixed (st : CStore) (now : Nat) (pre k : String)
    (hk : strHasPrefix pre k = true) :
    CStore.live (st.eraseKeys (st.keysWithPrefix now pre)) now k = none := by
  unfold CStore.live
  cases hlk : CStore.lookup (st.eraseKeys (st.keysWithPrefix now pre)) k with
  | none => rfl
  | some e =>
    by_cases hliv : now < e.expiry
    · exfalso
      obtain ⟨p, hm, hk1, hk2⟩ := CStore.lookup_mem _ _ _ hlk
      unfold CStore.eraseKeys at hm
      have hmf := List.mem_filter.mp hm
      have hnotks : ¬ p.1 ∈ st.keysWithPrefix now pre := by simpa using hmf.2
      apply hnotks
      unfold CStore.keysWithPrefix
      exact List.mem_map.mpr
        ⟨p, List.mem_filter.mpr ⟨hmf.1, by simp [hk1, hk2, hliv, hk]⟩, rfl⟩
    · simp [hliv]

/-- After a namespace clear, keys without the prefix keep their binding. -/
theorem CStore.lookup_clear_unprefixed (st : CStore) (now : Nat) (pre k : String)
    (hk : strHasPrefix pre k = false) :
    CStore.lookup (st.eraseKeys (st.keysWithPrefix now pre)) k
      = CStore.lookup st k := by
  apply CStore.lookup_eraseKeys_notin
  intro hmem
  unfold CStore.keysWithPrefix at hmem
  obtain ⟨p, hp, hpk⟩ := List.mem_map.mp hmem
  have hf := (List.mem_filter.mp hp).2
  rw [hpk] at hf
  simp [hk] at hf

open CacheService in
/-- C8: `clear` with a namespace removes exactly the live keys whose storage
key has the `namespace:` prefix — every prefixed key reads as absent
afterwards, and every other key keeps its exact binding; `clear` with no
namespace empties the whole store. -/
theorem C8_clear_frame (n : String) (now : Nat) (st : CStore) :
    (CacheService.clear (some n) now st false false
        = .ok (st.eraseKeys (st.keysWithPrefix now (n ++ ":"))))
    ∧ (∀ k, strHasPrefix (n ++ ":") k = true →
        CStore.live (st.eraseKeys (st.keysWithPrefix now (n ++ ":"))) now k = none)
    ∧ (∀ k, strHasPrefix (n ++ ":") k = false →
        CStore.lookup (st.eraseKeys (st.keysWithPrefix now (n ++ ":"))) k
          = CStore.lookup st k)
    ∧ CacheService.clear none now st false false = .ok ([] : CStore)
    ∧ (∀ k, CStore.lookup ([] : CStore) k = none) :=
  ⟨CacheService.clear_some_ok n now st,
   fun k hk => CStore.live_clear_prefixed st now (n ++ ":") k hk,
   fun k hk => CStore.lookup_clear_unprefixed st now (n ++ ":") k hk,
   rfl,
   fun _ => rfl⟩

/-- Concrete instantiation of C8: a `tasks:` key and a `users:` key; clearing
namespace `tasks` keeps the `users:` binding untouched. -/
theorem C8_clear_frame_witness :
    (strHasPrefix ("tasks" ++ ":") "users:2" = false)
    ∧ CStore.lookup
        (CStore.eraseKeys
          ([("tasks:1", { val := "I", expiry := 5 }), ("users:2", { val := "I", expiry := 5 })] : CStore)
          (CStore.keysWithPrefix
            ([("tasks:1", { val := "I", expiry := 5 }), ("users:2", { val := "I", expiry := 5 })] : CStore)
            0 ("tasks" ++ ":")))
        "users:2"
      = CStore.lookup
          ([("tasks:1", { val := "I", expiry := 5 }), ("users:2", { val := "I", expiry := 5 })] : CStore)
          "users:2" :=
  ⟨by decide,
    (C8_clear_frame "tasks" 0
      [("tasks:1", { val := "I", expiry := 5 }), ("users:2", { val := "I", expiry := 5 })]).2.2.1
      "users:2" (by decide)⟩

/-- Stores whose non-empty serialized values all parse (everything the cache
layer itself writes satisfies this, by `Codec.roundtrip`). -/
def CStore.wellFormed {α : Type} (c : Codec α) (st : CStore) : Prop :=
  ∀ p ∈ st, p.2.val ≠ "" → (c.parse p.2.val).isSome = true

open CacheService in
/-- C5: `mget` is positionally aligned with its input — over a store whose
serialized values parse, position `i` holds exactly what `get` returns for
key `i` (the deserialized live value, or `null` when absent); a backend
failure yields `null` at every position; and `mset({a:1,b:2})` followed by
`mget([a,b,c])` returns `[1, 2, null]`. -/
theorem C5_mget_alignment {α : Type} (c : Codec α) (keys : List String)
    (ns : Option String) (now : Nat) (st : CStore) :
    (CStore.wellFormed c st →
      CacheService.mget c keys ns now st false
        = keys.map (fun k => CacheService.get c k ns now st false))
    ∧ (CacheService.mget c keys ns now st true = List.replicate keys.length none)
    ∧ (∀ (v1 v2 : α) (st0 st' : CStore),
        CStore.live st0 now "c" = none →
        CacheService.mset c [("a", v1), ("b", v2)] DEFAULT_TTL none now st0 false
          = .ok st' →
        CacheService.mget c ["a", "b", "c"] none now st' false
          = [some v1, some v2, none]) := by
  refine ⟨?_, rfl, ?_⟩
  · intro hwf
    have hany : (keys.map (fun k => CStore.live st now (getKey k ns))).any
        (fun r => match r with
          | some e => decide (e.val ≠ "") && (c.parse e.val).isNone
          | none => false) = false := by
      rw [List.any_eq_false]
      intro r hr
      obtain ⟨k, hk, hrk⟩ := List.mem_map.mp hr
      cases r with
      | none => simp
      | some e =>
        obtain ⟨hlk, _⟩ := CStore.live_some st now (getKey k ns) e hrk
        obtain ⟨p, hm, _, hpe⟩ := CStore.lookup_mem st _ e hlk
        by_cases hne : e.val = ""
        · simp [hne]
        · have hps := hwf p hm (by rw [hpe]; exact hne)
          rw [hpe] at hps
          cases hp : c.parse e.val with
          | none => rw [hp] at hps; exact absurd hps (by simp)
          | some v => simp [hp]
    simp only [CacheService.mget, Bool.false_eq_true, if_false, hany]
    rw [List.map_map]
    have hfun : ((fun r => match r with
        | some e => if e.val = "" then none else c.parse e.val
        | none => none) ∘ (fun k => CStore.live st now (getKey k ns)))
        = (fun k => CacheService.get c k ns now st false) := by
      funext k
      cases hl : CStore.live st now (getKey k ns) <;>
        simp [CacheService.get, hl, Function.comp]
    rw [hfun]
  · intro v1 v2 st0 st' hc hmset
    have hst' : st' = (st0.put "a"
        { val := c.stringify v1, expiry := now + DEFAULT_TTL * 1000 }).put "b"
        { val := c.stringify v2, expiry := now + DEFAULT_TTL * 1000 } := by
      simp [CacheService.mset, CacheService.getKey] at hmset
      exact hmset.symm
    subst hst'
    have hlb : CStore.lookup ((st0.put "a"
        { val := c.stringify v1, expiry := now + DEFAULT_TTL * 1000 }).put "b"
        { val := c.stringify v2, expiry := now + DEFAULT_TTL * 1000 }) "b"
        = some { val := c.stringify v2, expiry := now + DEFAULT_TTL * 1000 } :=
      CStore.lookup_put_self _ _ _
    have hla : CStore.lookup ((st0.put "a"
        { val := c.stringify v1, expiry := now + DEFAULT_TTL * 1000 }).put "b"
        { val := c.stringify v2, expiry := now + DEFAULT_TTL * 1000 }) "a"
        = some { val := c.stringify v1, expiry := now + DEFAULT_TTL * 1000 } := by
      rw [CStore.lookup_put_ne _ _ _ _ (by decide)]
      exact CStore.lookup_put_self _ _ _
    have hlc : CStore.lookup ((st0.put "a"
        { val := c.stringify v1, expiry := now + DEFAULT_TTL * 1000 }).put "b"
        { val := c.stringify v2, expiry := now + DEFAULT_TTL * 1000 }) "c"
        = CStore.lookup st0 "c" := by
      rw [CStore.lookup_put_ne _ _ _ _ (by decide),
        CStore.lookup_put_ne _ _ _ _ (by decide)]
    have hexp : now < now + DEFAULT_TTL * 1000 := by
      simp [CacheService.DEFAULT_TTL]
    have hlivea : CStore.live ((st0.put "a"
        { val := c.stringify v1, expiry := now + DEFAULT_TTL * 1000 }).put "b"
        { val := c.stringify v2, expiry := now + DEFAULT_TTL * 1000 }) now "a"
        = some { val := c.stringify v1, expiry := now + DEFAULT_TTL * 1000 } := by
      unfold CStore.live
      rw [hla]
      simp [hexp]
    have hliveb : CStore.live ((st0.put "a"
        { val := c.stringify v1, expiry := now + DEFAULT_TTL * 1000 }).put "b"
        { val := c.stringify v2, expiry := now + DEFAULT_TTL * 1000 }) now "b"
        = some { val := c.stringify v2, expiry := now + DEFAULT_TTL * 1000 } := by
      unfold CStore.live
      rw [hlb]
      simp [hexp]
    have hlivec : CStore.live ((st0.put "a"
        { val := c.stringify v1, expiry := now + DEFAULT_TTL * 1000 }).put "b"
        { val := c.stringify v2, expiry := now + DEFAULT_TTL * 1000 }) now "c"
        = none := by
      unfold CStore.live
      rw [hlc]
      unfold CStore.live at hc
      exact hc
    simp [CacheService.mget, CacheService.getKey, hlivea, hliveb, hlivec,
      c.roundtrip, c.ne_empty]

/-- Concrete instantiation of C5: `mset({a:1,b:2})` then `mget([a,b,c])` on
an empty store returns `[1, 2, null]`. -/
theorem C5_mget_alignment_witness :
    (CStore.live ([] : CStore) 0 "c" = none
      ∧ CacheService.mset unaryCodec [("a", 1), ("b", 2)]
          CacheService.DEFAULT_TTL none 0 [] false
        = .ok ((([("a", 1), ("b", 2)] : List (String × Nat))).foldl
            (fun s p => s.put (CacheService.getKey p.1 none)
              { val := unaryCodec.stringify p.2,
                expiry := 0 + CacheService.DEFAULT_TTL * 1000 }) ([] : CStore)))
    ∧ CacheService.mget unaryCodec ["a", "b", "c"] none 0
        ((([("a", 1), ("b", 2)] : List (String × Nat))).foldl
          (fun s p => s.put (CacheService.getKey p.1 none)
            { val := unaryCodec.stringify p.2,
              expiry := 0 + CacheService.DEFAULT_TTL * 1000 }) ([] : CStore)) false
        = [some 1, some 2, none] :=
  ⟨⟨rfl, rfl⟩,
    (C5_mget_alignment unaryCodec ["a", "b", "c"] none 0 []).2.2 1 2 [] _ rfl rfl⟩
